import Mathlib

/-
  Verification development for the post-trade compliance analyzer.

  The compliance core (PolicyValidator, RiskDriftAnalyzer, BreachReporter,
  ReportIndexer) is a Python backend that is not present under src/; only its
  README, callers and the React frontend are.  Those components are therefore
  modelled from the specification (each such definition carries a doc comment
  starting with "Modelled from the spec:").  Frontend behaviour
  (PortfolioDetail.jsx, api.js) is embedded directly from the JavaScript
  sources.  Monetary amounts and weights are modelled as exact rationals.
-/

namespace PTCA

/-- A portfolio position (spec section 3): symbol, sector, quantity,
market value and isin. -/
structure Position where
  symbol : String
  sector : String
  quantity : ℚ
  market_value : ℚ
  isin : String
deriving DecidableEq, Repr

/-- A policy rule (spec section 3): a per-sector quantity limit. -/
structure PolicyRule where
  sector : String
  max_quantity : ℚ
deriving DecidableEq, Repr

/-- A risk-drift entry (spec section 3). -/
structure RiskDriftEntry where
  sector : String
  actual_weight : ℚ
  model_weight : ℚ
  drift : ℚ
  threshold : ℚ
  breached : Bool
deriving DecidableEq, Repr

/-- Decimal digit character: code 48 + (n mod 10). -/
def digit (n : Nat) : Char :=
  Char.ofNat (48 + n % 10)

/-- Fuel-driven base-10 rendering of a natural number (most significant
digit first).  The fuel bounds the recursion depth. -/
def natCharsAux (fuel : Nat) (n : Nat) : List Char :=
  match fuel with
  | 0 => []
  | fuel + 1 =>
    if n < 10 then [digit n]
    else natCharsAux fuel (n / 10) ++ [digit n]

/-- Base-10 rendering of a natural number. -/
def natChars (n : Nat) : List Char :=
  natCharsAux (n + 1) n

/-- Rendering of an integer, with a leading minus sign when negative. -/
def intChars (i : Int) : List Char :=
  if i < 0 then '-' :: natChars i.natAbs else natChars i.natAbs

/-- Rendering of a rational as num or num/den. -/
def ratChars (q : ℚ) : List Char :=
  if q.den = 1 then intChars q.num else intChars q.num ++ '/' :: natChars q.den

/-- Rendering of a rational as a string. -/
def ratStr (q : ℚ) : String :=
  String.mk (ratChars q)

/-- Modelled from the spec: sum of market_value over all positions
(RiskDriftAnalyzer, spec section 4.2; the Python backend agents are not
under src/). -/
def totalValue (positions : List Position) : ℚ :=
  (positions.map Position.market_value).sum

/-- Modelled from the spec: sum of market_value of the positions in one
sector (RiskDriftAnalyzer, spec section 4.2). -/
def sectorValue (positions : List Position) (s : String) : ℚ :=
  ((positions.filter (fun p => p.sector == s)).map Position.market_value).sum

/-- First-seen deduplication of a list of sector names, preserving the
order of first occurrence. -/
def firstSeen : List String → List String
  | [] => []
  | s :: rest => s :: (firstSeen rest).filter (fun t => t != s)

/-- Modelled from the spec: the sectors appearing either in the positions
or in the model allocation, in first-seen order (spec section 4.2). -/
def driftSectors (positions : List Position) (alloc : List (String × ℚ)) : List String :=
  firstSeen (positions.map Position.sector ++ alloc.map Prod.fst)

/-- Modelled from the spec: configured target weight of a sector, 0 when
the sector is absent from the model allocation (spec section 4.2). -/
def modelWeight (alloc : List (String × ℚ)) (s : String) : ℚ :=
  match alloc.find? (fun kv => kv.1 == s) with
  | some kv => kv.2
  | none => 0

/-- Modelled from the spec: one RiskDriftEntry for a sector, with
drift = actual − model and breached decided by the fixed strict policy
abs drift > threshold (spec sections 3 and 4.2; the boundary policy is
fixed to strict greater-than per the section 9 note). -/
def mkDriftEntry (positions : List Position) (alloc : List (String × ℚ))
    (threshold : ℚ) (total : ℚ) (s : String) : RiskDriftEntry :=
  let actual := sectorValue positions s / total
  let model := modelWeight alloc s
  let drift := actual - model
  { sector := s
    actual_weight := actual
    model_weight := model
    drift := drift
    threshold := threshold
    breached := decide (|drift| > threshold) }

/-- Result of the drift analysis: the drift entries plus warnings. -/
structure DriftResult where
  drifts : List RiskDriftEntry
  warnings : List String
deriving DecidableEq, Repr

/-- Modelled from the spec: default drift threshold 0.05 (spec 4.2). -/
def defaultDriftThreshold : ℚ :=
  5 / 100

/-- Modelled from the spec: the RiskDriftAnalyzer (spec section 4.2; the
Python agent is not under src/).  If the total market value is zero it
returns an empty drift list plus a warning; otherwise one entry per
first-seen sector. -/
def analyzeDrift (positions : List Position) (alloc : List (String × ℚ))
    (threshold : ℚ) : DriftResult :=
  let total := totalValue positions
  if total = 0 then
    { drifts := []
      warnings := ["Total portfolio value is zero; drift analysis skipped."] }
  else
    { drifts := (driftSectors positions alloc).map
        (mkDriftEntry positions alloc threshold total)
      warnings := [] }

/-- Modelled from the spec: the configured rule for a sector, if any
(PolicyValidator, spec section 4.1). -/
def findRule (rules : List PolicyRule) (s : String) : Option PolicyRule :=
  rules.find? (fun r => r.sector == s)

/-- Modelled from the spec: violation message for a breaching position
(PolicyValidator, spec section 4.1). -/
def violationMessage (p : Position) (r : PolicyRule) : String :=
  p.symbol ++ " in sector " ++ p.sector ++ " has quantity " ++ ratStr p.quantity
    ++ " exceeding limit " ++ ratStr r.max_quantity

/-- Modelled from the spec: whether a position breaches its sector rule
(quantity strictly above max_quantity; no configured rule means no
breach; spec section 4.1). -/
def positionBreaches (rules : List PolicyRule) (p : Position) : Bool :=
  match findRule rules p.sector with
  | some r => decide (p.quantity > r.max_quantity)
  | none => false

/-- Modelled from the spec: the violation emitted for one position, if
any (PolicyValidator, spec section 4.1). -/
def positionViolation (rules : List PolicyRule) (p : Position) : Option String :=
  match findRule rules p.sector with
  | some r =>
    if p.quantity > r.max_quantity then some (violationMessage p r) else none
  | none => none

/-- The violation string of a breaching position (empty for a
non-breaching one); used to phrase the validator characterisation. -/
def renderViolation (rules : List PolicyRule) (p : Position) : String :=
  (positionViolation rules p).getD ""

/-- Modelled from the spec: the PolicyValidator (spec section 4.1; the
Python agent is not under src/): one violation string per breaching
position, in position-list order. -/
def validatePolicy (positions : List Position) (rules : List PolicyRule) : List String :=
  positions.filterMap (positionViolation rules)

/-- JavaScript-style trim on a character list: strip whitespace from both
ends (embeds the semantics of String.prototype.trim used at
src/frontend/src/pages/PortfolioDetail/PortfolioDetail.jsx line 507). -/
def trimChars (l : List Char) : List Char :=
  ((l.dropWhile Char.isWhitespace).reverse.dropWhile Char.isWhitespace).reverse

/-- JavaScript-style split on a single separator character (embeds
String.prototype.split at PortfolioDetail.jsx line 507): splitting the
empty list yields one empty segment, like "".split of JavaScript. -/
def splitChar (sep : Char) : List Char → List (List Char)
  | [] => [[]]
  | c :: cs =>
    match splitChar sep cs with
    | [] => [[]]
    | seg :: rest => if c = sep then [] :: seg :: rest else (c :: seg) :: rest

/-- Semicolon-style join of character-list segments, the semantics of the
join producing risk_drifts_summary. -/
def joinSep (sep : Char) : List (List Char) → List Char
  | [] => []
  | [p] => p
  | p :: q :: rest => p ++ sep :: joinSep sep (q :: rest)

/-- Modelled from the spec: the breach phrase of one drift entry,
"sector: drift d exceeds threshold t" (BreachReporter, spec section 4.3;
the Python agent is not under src/). -/
def breachPhrase (e : RiskDriftEntry) : List Char :=
  e.sector.data ++ (": drift ").data ++ ratChars e.drift
    ++ (" exceeds threshold ").data ++ ratChars e.threshold

/-- Modelled from the spec: risk_drifts_summary concatenates, per
breached entry only, the breach phrases joined by a semicolon
(BreachReporter, spec section 4.3). -/
def riskDriftsSummary (entries : List RiskDriftEntry) : List Char :=
  joinSep ';' ((entries.filter RiskDriftEntry.breached).map breachPhrase)

/-- The frontend rendering of risk_drifts_summary (PortfolioDetail.jsx
line 507): split on a semicolon, drop segments that are blank after
trimming, and trim each kept segment. -/
def renderSummarySegments (summary : List Char) : List (List Char) :=
  ((splitChar ';' summary).filter (fun seg => trimChars seg != [])).map trimChars

/-- Modelled from the spec: policy_violations_summary, a readable
concatenation of the violation strings with a "none" sentinel when empty
(BreachReporter, spec section 4.3). -/
def policyViolationsSummary (violations : List String) : String :=
  if violations.isEmpty then "none" else String.intercalate "; " violations

/-- The ComplianceReport produced by the BreachReporter (spec sections 3
and 6). -/
structure ComplianceReport where
  raw_policy_violations : List String
  raw_risk_drifts : List RiskDriftEntry
  policy_violations_summary : String
  risk_drifts_summary : String
  warnings : List String
  generated_at : Nat
deriving DecidableEq, Repr

/-- Modelled from the spec: the BreachReporter (spec section 4.3; the
Python agent is not under src/): merges validator and analyzer output
into a ComplianceReport without recomputing drift values. -/
def buildReport (positions : List Position) (rules : List PolicyRule)
    (alloc : List (String × ℚ)) (threshold : ℚ) (generatedAt : Nat) : ComplianceReport :=
  let violations := validatePolicy positions rules
  let driftResult := analyzeDrift positions alloc threshold
  { raw_policy_violations := violations
    raw_risk_drifts := driftResult.drifts
    policy_violations_summary := policyViolationsSummary violations
    risk_drifts_summary := String.mk (riskDriftsSummary driftResult.drifts)
    warnings := driftResult.warnings
    generated_at := generatedAt }

/-- Everything of a ComplianceReport except its generated_at timestamp. -/
def reportContent (r : ComplianceReport) :
    List String × List RiskDriftEntry × String × String × List String :=
  (r.raw_policy_violations, r.raw_risk_drifts, r.policy_violations_summary,
    r.risk_drifts_summary, r.warnings)

/-- Modelled from the spec: deterministic passage id, a combination of
portfolio id, chunk type and ordinal (ReportIndexer, spec section 4.4;
the Python indexing service is not under src/). -/
structure PassageKey where
  portfolio_id : String
  chunk_type : String
  ordinal : Nat
deriving DecidableEq, Repr

/-- A passage stored in the vector index namespace (spec section 3). -/
structure Passage where
  key : PassageKey
  text : String
deriving DecidableEq, Repr

/-- Modelled from the spec: vector-index upsert keyed by the passage id
(spec section 6): an existing id has its record replaced in place, a new
id is appended. -/
def upsert (idx : List Passage) (p : Passage) : List Passage :=
  if (idx.find? (fun q => q.key == p.key)).isSome then
    idx.map (fun q => if q.key == p.key then p else q)
  else
    idx ++ [p]

/-- A drift entry rendered as a descriptive passage sentence
(ReportIndexer, spec section 4.4). -/
def driftSentence (e : RiskDriftEntry) : String :=
  String.mk (breachPhrase e)

/-- Modelled from the spec: the passages built from a report: one per
violation string, one per drift entry, one per summary field, each keyed
by portfolio id, chunk type and ordinal (ReportIndexer, spec 4.4). -/
def buildPassages (portfolioId : String) (r : ComplianceReport) : List Passage :=
  r.raw_policy_violations.enum.map (fun pr =>
      { key := { portfolio_id := portfolioId, chunk_type := "violation", ordinal := pr.1 }
        text := pr.2 })
    ++ r.raw_risk_drifts.enum.map (fun pr =>
      { key := { portfolio_id := portfolioId, chunk_type := "drift", ordinal := pr.1 }
        text := driftSentence pr.2 })
    ++ [{ key := { portfolio_id := portfolioId, chunk_type := "summary", ordinal := 0 }
          text := r.policy_violations_summary },
        { key := { portfolio_id := portfolioId, chunk_type := "summary", ordinal := 1 }
          text := r.risk_drifts_summary }]

/-- Modelled from the spec: the ReportIndexer upserts every built
passage into the portfolio namespace (spec section 4.4). -/
def indexReport (idx : List Passage) (portfolioId : String) (r : ComplianceReport) : List Passage :=
  (buildPassages portfolioId r).foldl upsert idx

/-- A chat turn of the conversation (spec section 3). -/
structure ChatTurn where
  role : String
  content : String
deriving DecidableEq, Repr

/-- A question request as assembled by the frontend: target url, the
question, and the chat history carried in the JSON body, if any. -/
structure UiQuestionRequest where
  url : String
  question : String
  chat_history : Option (List ChatTurn)
deriving DecidableEq, Repr

/-- The backend base url (src/frontend/src/services/api.js line 3). -/
def API_BASE_URL : String :=
  "http://localhost:8000"

/-- Embeds askComplianceQuestion of src/frontend/src/services/api.js
lines 35-46: a POST to /ask/portfolioId with the question as a query
parameter and a null body, so no chat history travels with it. -/
def askComplianceQuestion (portfolioId question : String) : UiQuestionRequest :=
  { url := API_BASE_URL ++ "/ask/" ++ portfolioId
    question := question
    chat_history := none }

/-- Embeds the request construction of handleSendMessage
(PortfolioDetail.jsx lines 271-275): the rag url names both client and
portfolio, and the body carries the question plus the prior history. -/
def ragRequest (clientId portfolioId question : String)
    (history : List ChatTurn) : UiQuestionRequest :=
  { url := API_BASE_URL ++ "/rag/ask/" ++ clientId ++ "/" ++ portfolioId
    question := question
    chat_history := some history }

/-- Outcome of the fetch performed by handleSendMessage: either a parsed
response body with an answer field, or a caught error message. -/
inductive RagOutcome where
  | success (answer : String)
  | failure (message : String)
deriving DecidableEq, Repr

/-- What one handleSendMessage call leaves behind: the request it sent,
if any, and the final chat history state. -/
structure SendOutcome where
  request : Option UiQuestionRequest
  chatHistory : List ChatTurn
deriving DecidableEq, Repr

/-- JavaScript-style trim of a string, via trimChars. -/
def jsTrim (s : String) : String :=
  String.mk (trimChars s.data)

/-- Embeds handleSendMessage of PortfolioDetail.jsx lines 262-299 (same
function in src/unnamed/part_006 lines 121-168): a blank question sends
nothing; otherwise the user turn is appended optimistically, the request
carries the history from before that append, a successful response
appends an assistant turn with the answer, and a caught error drops the
optimistic user turn and appends an assistant error turn instead. -/
def handleSendMessage (clientId portfolioId : String) (chatHistory : List ChatTurn)
    (currentQuestion : String) (outcome : RagOutcome) : SendOutcome :=
  if jsTrim currentQuestion = "" then
    { request := none, chatHistory := chatHistory }
  else
    let newUserMessage : ChatTurn := { role := "user", content := currentQuestion }
    let optimistic := chatHistory ++ [newUserMessage]
    let req := ragRequest clientId portfolioId newUserMessage.content chatHistory
    match outcome with
    | RagOutcome.success answer =>
        { request := some req
          chatHistory := optimistic ++ [{ role := "assistant", content := answer }] }
    | RagOutcome.failure message =>
        { request := some req
          chatHistory := optimistic.dropLast
            ++ [{ role := "assistant", content := "Error: Could not get a response. " ++ message }] }

/-- A JavaScript number as seen after parseFloat: either NaN or an exact
value.  The raw drift field of a historical record is modelled by the
outcome parseFloat would give on it. -/
inductive JsNum where
  | nan
  | val (q : ℚ)
deriving DecidableEq, Repr

/-- JavaScript addition: NaN propagates. -/
def jsAdd : JsNum → JsNum → JsNum
  | JsNum.nan, _ => JsNum.nan
  | _, JsNum.nan => JsNum.nan
  | JsNum.val a, JsNum.val b => JsNum.val (a + b)

/-- JavaScript Math.abs: NaN propagates. -/
def jsAbs : JsNum → JsNum
  | JsNum.nan => JsNum.nan
  | JsNum.val a => JsNum.val |a|

/-- JavaScript isNaN on a number. -/
def jsIsNaN : JsNum → Bool
  | JsNum.nan => true
  | JsNum.val _ => false

/-- One element of raw_risk_drifts as the chart reads it: only the drift
field matters, given by its parseFloat outcome. -/
structure RawDriftJs where
  sector : String
  drift : JsNum
deriving DecidableEq, Repr

/-- The compliance_report field of a historical record, as the chart
reads it: raw_risk_drifts is none when absent or not an array. -/
structure ComplianceReportJs where
  raw_risk_drifts : Option (List RawDriftJs)
deriving DecidableEq, Repr

/-- One historical report record consumed by HistoricalComplianceChart
(src/unnamed/part_005 lines 54-116). -/
structure HistoricalRecordJs where
  compliance_report : Option ComplianceReportJs
  uploaded_at : Option String
  date : String
deriving DecidableEq, Repr

/-- JavaScript a || b for an optional string: a missing or empty left
operand falls through to the right one. -/
def jsOrStr (a : Option String) (b : String) : String :=
  match a with
  | some s => if s = "" then b else s
  | none => b

/-- Embeds the chart filter predicate (part_005 lines 61-66): the record
qualifies when compliance_report exists and raw_risk_drifts is a
non-empty array. -/
def hasChartableDrifts (r : HistoricalRecordJs) : Bool :=
  match r.compliance_report with
  | none => false
  | some cr =>
    match cr.raw_risk_drifts with
    | none => false
    | some drifts => decide (0 < drifts.length)

/-- The raw_risk_drifts list of a record, empty when absent. -/
def recordDrifts (r : HistoricalRecordJs) : List RawDriftJs :=
  match r.compliance_report with
  | none => []
  | some cr =>
    match cr.raw_risk_drifts with
    | none => []
    | some drifts => drifts

/-- Embeds the reduce of part_005 lines 68-71: sum, over the drift
entries, of the absolute parsed drift, adding 0 in place of a value that
parsed to NaN. -/
def totalDriftJs (drifts : List RawDriftJs) : JsNum :=
  drifts.foldl
    (fun sum d =>
      let driftValue := d.drift
      jsAdd sum (if jsIsNaN driftValue then JsNum.val 0 else jsAbs driftValue))
    (JsNum.val 0)

/-- One point of the historical chart. -/
structure ChartPoint where
  date : String
  totalRiskDrift : JsNum
deriving DecidableEq, Repr

/-- The chart point built from one qualifying record (part_005 lines
67-76); fmtDate stands for the locale date formatting. -/
def mkChartPoint (fmtDate : String → String) (r : HistoricalRecordJs) : ChartPoint :=
  { date := fmtDate (jsOrStr r.uploaded_at r.date)
    totalRiskDrift := totalDriftJs (recordDrifts r) }

/-- Insertion of one element into a list sorted by a boolean comparison. -/
def insertBy (le : ChartPoint → ChartPoint → Bool) (a : ChartPoint) :
    List ChartPoint → List ChartPoint
  | [] => [a]
  | b :: bs => if le a b then a :: b :: bs else b :: insertBy le a bs

/-- Comparison sort of the chart points, embedding the Array.prototype
sort call of part_005 line 78. -/
def sortBy (le : ChartPoint → ChartPoint → Bool) : List ChartPoint → List ChartPoint
  | [] => []
  | a :: as => insertBy le a (sortBy le as)

/-- Embeds the chartData pipeline of HistoricalComplianceChart
(part_005 lines 60-78): filter the qualifying records, map each to its
point, and sort by date; dateLe stands for the date comparison. -/
def chartData (reports : List HistoricalRecordJs) (fmtDate : String → String)
    (dateLe : ChartPoint → ChartPoint → Bool) : List ChartPoint :=
  sortBy dateLe ((reports.filter hasChartableDrifts).map (mkChartPoint fmtDate))

/-- An index stores a passage cleanly when the passage is present and
every record under its key agrees with it. -/
def Stored (idx : List Passage) (p : Passage) : Prop :=
  p ∈ idx ∧ ∀ q ∈ idx, q.key = p.key → q = p

/-- Fixture: threshold 0.05 as the reduced rational 1/20. -/
def qTh : ℚ := ⟨1, 20, by decide, by decide⟩

/-- Fixture: model target 0.30 for the Tech sector. -/
def qTechTarget : ℚ := ⟨3, 10, by decide, by decide⟩

/-- Fixture positions of Scenario A: Tech worth 400000 out of a total
market value of 1000000. -/
def posA : List Position :=
  [{ symbol := "TCH", sector := "Tech", quantity := 100, market_value := 400000, isin := "I1" },
   { symbol := "FIN", sector := "Financials", quantity := 200, market_value := 600000, isin := "I2" }]

/-- Fixture model allocation of Scenario A. -/
def allocA : List (String × ℚ) :=
  [("Tech", qTechTarget)]

/-- Fixture: the Tech drift entry of Scenario A. -/
def driftEntryTech : RiskDriftEntry :=
  mkDriftEntry posA allocA qTh (totalValue posA) "Tech"

/-- Fixture: a portfolio whose positions sum to zero market value. -/
def posZero : List Position :=
  [{ symbol := "Z", sector := "Tech", quantity := 5, market_value := 0, isin := "Z1" }]

/-- Fixture: a breached drift entry with reduced rational fields. -/
def entryBreached : RiskDriftEntry :=
  { sector := "Tech"
    actual_weight := ⟨2, 5, by decide, by decide⟩
    model_weight := qTechTarget
    drift := ⟨1, 10, by decide, by decide⟩
    threshold := qTh
    breached := true }

/-- Fixture: a non-breaching drift entry. -/
def entryOk : RiskDriftEntry :=
  { sector := "Financials"
    actual_weight := ⟨3, 5, by decide, by decide⟩
    model_weight := ⟨3, 5, by decide, by decide⟩
    drift := 0
    threshold := qTh
    breached := false }

/-- Fixture drift-entry list with one breached and one clean entry. -/
def entriesFix : List RiskDriftEntry :=
  [entryBreached, entryOk]

/-- Fixture chat history of two turns. -/
def histFix : List ChatTurn :=
  [{ role := "user", content := "hi" }, { role := "assistant", content := "hello" }]

/-- Fixture historical record with one NaN drift and one numeric drift. -/
def recChart : HistoricalRecordJs :=
  { compliance_report := some
      { raw_risk_drifts := some
          [{ sector := "Tech", drift := JsNum.nan },
           { sector := "Financials", drift := JsNum.val qTh }] }
    uploaded_at := none
    date := "2024-01-01" }

/-- Fixture chart point built from recChart. -/
def chartPtFix : ChartPoint :=
  mkChartPoint id recChart

/-- The drift list of a non-degenerate analysis run. -/
theorem analyzeDrift_drifts_of_ne (positions : List Position) (alloc : List (String × ℚ))
    (threshold : ℚ) (h : totalValue positions ≠ 0) :
    (analyzeDrift positions alloc threshold).drifts
      = (driftSectors positions alloc).map
          (mkDriftEntry positions alloc threshold (totalValue positions)) := by
  simp [analyzeDrift, h]

/-- The degenerate analysis run on a zero-value portfolio. -/
theorem analyzeDrift_of_eq (positions : List Position) (alloc : List (String × ℚ))
    (threshold : ℚ) (h : totalValue positions = 0) :
    analyzeDrift positions alloc threshold
      = { drifts := []
          warnings := ["Total portfolio value is zero; drift analysis skipped."] } := by
  simp [analyzeDrift, h]

/-- C1: every RiskDriftEntry produced by the drift analysis satisfies
drift = actual_weight − model_weight, and breached holds exactly when the
absolute drift strictly exceeds the threshold, the fixed boundary policy
applied to every entry. -/
theorem drift_entry_invariant (positions : List Position) (alloc : List (String × ℚ))
    (threshold : ℚ) (e : RiskDriftEntry)
    (he : e ∈ (analyzeDrift positions alloc threshold).drifts) :
    e.drift = e.actual_weight - e.model_weight
      ∧ (e.breached = true ↔ |e.drift| > e.threshold) := by
  by_cases h : totalValue positions = 0
  · rw [analyzeDrift_of_eq positions alloc threshold h] at he
    cases he
  · rw [analyzeDrift_drifts_of_ne positions alloc threshold h] at he
    rcases List.mem_map.mp he with ⟨s, _, rfl⟩
    exact ⟨rfl, by simp [mkDriftEntry]⟩

/-- Witness for C1 at the Scenario A fixture. -/
theorem drift_entry_invariant_witness :
    driftEntryTech.drift = driftEntryTech.actual_weight - driftEntryTech.model_weight
      ∧ (driftEntryTech.breached = true ↔ |driftEntryTech.drift| > driftEntryTech.threshold) :=
  drift_entry_invariant posA allocA qTh driftEntryTech
    (by
      have h : totalValue posA ≠ 0 := by norm_num [totalValue, posA]
      rw [analyzeDrift_drifts_of_ne posA allocA qTh h]
      exact List.mem_map_of_mem _ (by decide))

/-- C4: a portfolio whose positions sum to zero market value yields an
empty drift list together with a warning. -/
theorem zero_total_value_degrades (positions : List Position) (alloc : List (String × ℚ))
    (threshold : ℚ) (h : totalValue positions = 0) :
    (analyzeDrift positions alloc threshold).drifts = []
      ∧ (analyzeDrift positions alloc threshold).warnings ≠ [] := by
  rw [analyzeDrift_of_eq positions alloc threshold h]
  exact ⟨rfl, by simp⟩

/-- Witness for C4 at the zero-value fixture portfolio. -/
theorem zero_total_value_degrades_witness :
    (analyzeDrift posZero [] qTh).drifts = []
      ∧ (analyzeDrift posZero [] qTh).warnings ≠ [] :=
  zero_total_value_degrades posZero [] qTh (by simp [totalValue, posZero])

/-- A position's emitted violation is some string exactly when the
position breaches. -/
theorem positionViolation_isSome (rules : List PolicyRule) (p : Position) :
    (positionViolation rules p).isSome = positionBreaches rules p := by
  unfold positionViolation positionBreaches
  cases hfr : findRule rules p.sector with
  | none => rfl
  | some r =>
    by_cases hq : p.quantity > r.max_quantity
    · simp [hq]
    · simp [hq]

/-- C2: the validator output is exactly the rendered violations of the
breaching positions, in position-list order; a position breaches exactly
when its sector has a configured rule whose max_quantity its quantity
strictly exceeds; a sector with no configured rule never violates. -/
theorem policy_validator_characterisation (positions : List Position)
    (rules : List PolicyRule) :
    validatePolicy positions rules
        = (positions.filter (positionBreaches rules)).map (renderViolation rules)
      ∧ (∀ p : Position, positionBreaches rules p = true
            ↔ ∃ r, findRule rules p.sector = some r ∧ p.quantity > r.max_quantity)
      ∧ ∀ p : Position, findRule rules p.sector = none →
          positionBreaches rules p = false := by
  refine ⟨?_, ?_, ?_⟩
  · induction positions with
    | nil => rfl
    | cons p ps ih =>
      simp only [validatePolicy, List.filterMap_cons, List.filter_cons] at ih ⊢
      by_cases hb : positionBreaches rules p = true
      · have hs : (positionViolation rules p).isSome = true := by
          rw [positionViolation_isSome, hb]
        rcases Option.isSome_iff_exists.mp hs with ⟨v, hv⟩
        simp [hv, hb, ih, renderViolation]
      · have hs : positionViolation rules p = none := by
          have := positionViolation_isSome rules p
          rw [eq_false_of_ne_true hb] at this
          exact Option.not_isSome_iff_eq_none.mp (by simp [this])
        simp [hs, hb, ih]
  · intro p
    unfold positionBreaches
    cases hfr : findRule rules p.sector with
    | none => simp [hfr]
    | some r => simp [hfr]
  · intro p h
    unfold positionBreaches
    rw [h]

/-- Pointwise sum of two rational-valued maps over a list. -/
theorem sum_map_add {α : Type} (f g : α → ℚ) (l : List α) :
    (l.map (fun x => f x + g x)).sum = (l.map f).sum + (l.map g).sum := by
  induction l with
  | nil => simp
  | cons a l ih => simp only [List.map_cons, List.sum_cons, ih]; ring

/-- Summing an indicator of a sector that is absent gives zero. -/
theorem sum_if_not_mem (S : List String) (a : String) (v : ℚ) (h : a ∉ S) :
    (S.map (fun s => if a = s then v else 0)).sum = 0 := by
  induction S with
  | nil => rfl
  | cons s S ih =>
    have hne : a ≠ s := fun hh => h (hh ▸ List.mem_cons_self s S)
    simp only [List.map_cons, List.sum_cons, if_neg hne,
      ih (fun hm => h (List.mem_cons_of_mem s hm)), add_zero]

/-- Summing an indicator of a present sector over a duplicate-free list
gives the single value. -/
theorem sum_if_mem (S : List String) (hS : S.Nodup) (a : String) (ha : a ∈ S) (v : ℚ) :
    (S.map (fun s => if a = s then v else 0)).sum = v := by
  induction S with
  | nil => cases ha
  | cons s S ih =>
    rcases List.nodup_cons.mp hS with ⟨hnmem, hnd⟩
    rcases List.mem_cons.mp ha with rfl | hmem
    · simp only [List.map_cons, List.sum_cons,
        sum_if_not_mem S a v hnmem, add_zero]
      simp
    · have hne : a ≠ s := fun hh => hnmem (hh ▸ hmem)
      simp only [List.map_cons, List.sum_cons, if_neg hne, ih hnd hmem, zero_add]

/-- Sector value splits off the head position. -/
theorem sectorValue_cons (p : Position) (ps : List Position) (s : String) :
    sectorValue (p :: ps) s
      = (if p.sector = s then p.market_value else 0) + sectorValue ps s := by
  simp only [sectorValue, List.filter_cons]
  by_cases h : p.sector = s
  · simp [h]
  · simp [h]

/-- Over a duplicate-free sector list covering all positions, the sector
values sum to the total value. -/
theorem sum_sectorValue_eq_totalValue (positions : List Position) (S : List String)
    (hS : S.Nodup) (hcov : ∀ p ∈ positions, p.sector ∈ S) :
    (S.map (sectorValue positions)).sum = totalValue positions := by
  induction positions with
  | nil =>
    refine Eq.trans (List.sum_eq_zero ?_) rfl
    intro x hx
    rcases List.mem_map.mp hx with ⟨s, _, rfl⟩
    rfl
  | cons p ps ih =>
    have hmap : S.map (sectorValue (p :: ps))
        = S.map (fun s => (if p.sector = s then p.market_value else 0) + sectorValue ps s) :=
      List.map_congr_left (fun s _ => sectorValue_cons p ps s)
    rw [hmap, sum_map_add,
      sum_if_mem S hS p.sector (hcov p (List.mem_cons_self p ps)) p.market_value,
      ih (fun q hq => hcov q (List.mem_cons_of_mem p hq))]
    simp [totalValue]

/-- Membership in the first-seen deduplication. -/
theorem mem_firstSeen (a : String) (l : List String) : a ∈ firstSeen l ↔ a ∈ l := by
  induction l with
  | nil => simp [firstSeen]
  | cons s rest ih =>
    simp only [firstSeen, List.mem_cons, List.mem_filter, bne_iff_ne]
    constructor
    · rintro (rfl | ⟨hmem, _⟩)
      · exact Or.inl rfl
      · exact Or.inr (ih.mp hmem)
    · rintro (rfl | hmem)
      · exact Or.inl rfl
      · by_cases heq : a = s
        · exact Or.inl heq
        · exact Or.inr ⟨ih.mpr hmem, heq⟩

/-- The first-seen deduplication is duplicate-free. -/
theorem nodup_firstSeen (l : List String) : (firstSeen l).Nodup := by
  induction l with
  | nil => simp [firstSeen]
  | cons s rest ih =>
    simp only [firstSeen, List.nodup_cons]
    refine ⟨?_, List.Nodup.filter _ ih⟩
    intro hmem
    rcases List.mem_filter.mp hmem with ⟨_, hb⟩
    simp [bne_iff_ne] at hb

/-- Division distributes over the sum of a mapped list. -/
theorem sum_map_div (S : List String) (f : String → ℚ) (T : ℚ) :
    (S.map (fun s => f s / T)).sum = (S.map f).sum / T := by
  induction S with
  | nil => simp
  | cons s S ih => simp only [List.map_cons, List.sum_cons, ih, add_div]

/-- C3: when the total market value is strictly positive, the actual
weights over the emitted drift entries sum to exactly one. -/
theorem actual_weights_sum_to_one (positions : List Position) (alloc : List (String × ℚ))
    (threshold : ℚ) (h : 0 < totalValue positions) :
    (((analyzeDrift positions alloc threshold).drifts).map RiskDriftEntry.actual_weight).sum
      = 1 := by
  have hne : totalValue positions ≠ 0 := ne_of_gt h
  rw [analyzeDrift_drifts_of_ne positions alloc threshold hne, List.map_map]
  have hcomp : RiskDriftEntry.actual_weight
        ∘ mkDriftEntry positions alloc threshold (totalValue positions)
      = fun s => sectorValue positions s / totalValue positions := rfl
  rw [hcomp, sum_map_div,
    sum_sectorValue_eq_totalValue positions (driftSectors positions alloc)
      (nodup_firstSeen (positions.map Position.sector ++ alloc.map Prod.fst)) ?_,
    div_self hne]
  intro p hp
  unfold driftSectors
  rw [mem_firstSeen]
  exact List.mem_append_left _ (List.mem_map_of_mem Position.sector hp)

/-- Witness for C3 at the Scenario A fixture. -/
theorem actual_weights_sum_to_one_witness :
    (((analyzeDrift posA allocA qTh).drifts).map RiskDriftEntry.actual_weight).sum = 1 :=
  actual_weights_sum_to_one posA allocA qTh (by norm_num [totalValue, posA])

/-- Splitting never yields an empty segment list. -/
theorem splitChar_ne_nil (sep : Char) (l : List Char) : splitChar sep l ≠ [] := by
  cases l with
  | nil => simp [splitChar]
  | cons c cs =>
    simp only [splitChar]
    rcases h : splitChar sep cs with _ | ⟨seg, rest⟩
    · simp
    · by_cases hc : c = sep <;> simp [hc]

/-- Splitting a separator-free list yields that single segment. -/
theorem splitChar_of_not_mem (sep : Char) (l : List Char) (h : sep ∉ l) :
    splitChar sep l = [l] := by
  induction l with
  | nil => rfl
  | cons c cs ih =>
    have hc : ¬c = sep := fun hh => h (hh ▸ List.mem_cons_self c cs)
    simp only [splitChar, ih (fun hm => h (List.mem_cons_of_mem c hm)), if_neg hc]

/-- Splitting peels off a separator-free head segment. -/
theorem splitChar_append (sep : Char) (l t : List Char) (h : sep ∉ l) :
    splitChar sep (l ++ sep :: t) = l :: splitChar sep t := by
  induction l with
  | nil =>
    simp only [List.nil_append, splitChar]
    rcases hs : splitChar sep t with _ | ⟨seg, rest⟩
    · exact absurd hs (splitChar_ne_nil sep t)
    · simp
  | cons c cs ih =>
    have hc : ¬c = sep := fun hh => h (hh ▸ List.mem_cons_self c cs)
    simp only [List.cons_append, splitChar, List.append_eq,
      ih (fun hm => h (List.mem_cons_of_mem c hm)), if_neg hc]

/-- Splitting inverts joining when every segment is separator-free. -/
theorem splitChar_joinSep (sep : Char) (l : List (List Char)) (hl : l ≠ [])
    (h : ∀ p ∈ l, sep ∉ p) :
    splitChar sep (joinSep sep l) = l := by
  induction l with
  | nil => cases hl rfl
  | cons p rest ih =>
    cases rest with
    | nil => exact splitChar_of_not_mem sep p (h p (List.mem_cons_self p []))
    | cons q rest2 =>
      rw [joinSep, splitChar_append sep p _ (h p (List.mem_cons_self p (q :: rest2))),
        ih (by simp) (fun x hx => h x (List.mem_cons_of_mem p hx))]

/-- C5: risk_drifts_summary is the semicolon-join of one breach phrase
per breached entry only, and the frontend split-trim-filter rendering
recovers exactly those phrases, one per breached entry, provided each
breached phrase is semicolon-free, trim-fixed and non-empty. -/
theorem summary_roundtrip (entries : List RiskDriftEntry)
    (h : ∀ e ∈ entries, e.breached = true →
          ';' ∉ breachPhrase e ∧ trimChars (breachPhrase e) = breachPhrase e
            ∧ breachPhrase e ≠ []) :
    riskDriftsSummary entries
        = joinSep ';' ((entries.filter RiskDriftEntry.breached).map breachPhrase)
      ∧ renderSummarySegments (riskDriftsSummary entries)
        = (entries.filter RiskDriftEntry.breached).map breachPhrase := by
  refine ⟨rfl, ?_⟩
  have hall : ∀ p ∈ (entries.filter RiskDriftEntry.breached).map breachPhrase,
      ';' ∉ p ∧ trimChars p = p ∧ p ≠ [] := by
    intro p hp
    rcases List.mem_map.mp hp with ⟨e, he, rfl⟩
    rcases List.mem_filter.mp he with ⟨hmem, hbr⟩
    exact h e hmem hbr
  unfold renderSummarySegments
  by_cases hnil : (entries.filter RiskDriftEntry.breached).map breachPhrase = []
  · have hsum : riskDriftsSummary entries = [] := by
      unfold riskDriftsSummary
      rw [hnil]
      rfl
    rw [hsum, hnil]
    rfl
  · have hsplit : splitChar ';' (riskDriftsSummary entries)
        = (entries.filter RiskDriftEntry.breached).map breachPhrase := by
      unfold riskDriftsSummary
      exact splitChar_joinSep ';' _ hnil (fun p hp => (hall p hp).1)
    rw [hsplit]
    have hfil : ((entries.filter RiskDriftEntry.breached).map breachPhrase).filter
          (fun seg => trimChars seg != [])
        = (entries.filter RiskDriftEntry.breached).map breachPhrase := by
      apply List.filter_eq_self.mpr
      intro p hp
      rw [(hall p hp).2.1]
      simpa using (hall p hp).2.2
    rw [hfil]
    have hmap : ((entries.filter RiskDriftEntry.breached).map breachPhrase).map trimChars
        = ((entries.filter RiskDriftEntry.breached).map breachPhrase).map id :=
      List.map_congr_left (fun p hp => (hall p hp).2.1)
    rw [hmap, List.map_id]

/-- Witness for C5 at the fixture entry list. -/
theorem summary_roundtrip_witness :
    riskDriftsSummary entriesFix
        = joinSep ';' ((entriesFix.filter RiskDriftEntry.breached).map breachPhrase)
      ∧ renderSummarySegments (riskDriftsSummary entriesFix)
        = (entriesFix.filter RiskDriftEntry.breached).map breachPhrase :=
  summary_roundtrip entriesFix (by decide)

/-- After an upsert, its passage is cleanly stored. -/
theorem upsert_stored_self (idx : List Passage) (p : Passage) :
    Stored (upsert idx p) p := by
  unfold upsert Stored
  by_cases hf : (idx.find? (fun q => q.key == p.key)).isSome
  · rw [if_pos hf]
    rcases List.find?_isSome.mp hf with ⟨q0, hq0, hq0k⟩
    constructor
    · have hmm := List.mem_map_of_mem (fun q => if q.key == p.key then p else q) hq0
      simpa [hq0k] using hmm
    · intro q hq hk
      rcases List.mem_map.mp hq with ⟨q1, _, rfl⟩
      by_cases h1 : q1.key == p.key
      · rw [if_pos h1]
      · rw [if_neg h1] at hk ⊢
        exact absurd (by simp [hk]) h1
  · rw [if_neg hf]
    have hnone : idx.find? (fun q => q.key == p.key) = none :=
      Option.not_isSome_iff_eq_none.mp hf
    constructor
    · exact List.mem_append_right idx (List.mem_singleton_self p)
    · intro q hq hk
      rcases List.mem_append.mp hq with hmem | hmem
      · exact absurd (by simp [hk]) (List.find?_eq_none.mp hnone q hmem)
      · simpa using hmem

/-- An upsert under a different key leaves a cleanly stored passage
cleanly stored. -/
theorem upsert_stored_other (idx : List Passage) (p p' : Passage)
    (hS : Stored idx p') (hk : p'.key ≠ p.key) :
    Stored (upsert idx p) p' := by
  unfold upsert
  by_cases hf : (idx.find? (fun q => q.key == p.key)).isSome
  · rw [if_pos hf]
    constructor
    · have hfk : (p'.key == p.key) = false := by simpa using hk
      have hmm := List.mem_map_of_mem (fun q => if q.key == p.key then p else q) hS.1
      simpa [hfk] using hmm
    · intro q hq hkq
      rcases List.mem_map.mp hq with ⟨q1, hq1, rfl⟩
      by_cases h1 : q1.key == p.key
      · rw [if_pos h1] at hkq ⊢
        exact absurd hkq.symm hk
      · rw [if_neg h1] at hkq ⊢
        exact hS.2 q1 hq1 hkq
  · rw [if_neg hf]
    constructor
    · exact List.mem_append_left [p] hS.1
    · intro q hq hkq
      rcases List.mem_append.mp hq with hmem | hmem
      · exact hS.2 q hmem hkq
      · have : q = p := by simpa using hmem
        subst this
        exact absurd hkq.symm hk

/-- Upserting a passage that is already cleanly stored changes nothing. -/
theorem upsert_stored_noop (idx : List Passage) (p : Passage) (hS : Stored idx p) :
    upsert idx p = idx := by
  unfold upsert
  have hf : (idx.find? (fun q => q.key == p.key)).isSome :=
    List.find?_isSome.mpr ⟨p, hS.1, by simp⟩
  rw [if_pos hf]
  have hid : ∀ q ∈ idx, (if q.key == p.key then p else q) = q := by
    intro q hq
    by_cases h : q.key == p.key
    · rw [if_pos h]
      exact (hS.2 q hq (by simpa using h)).symm
    · rw [if_neg h]
  calc idx.map (fun q => if q.key == p.key then p else q)
      = idx.map id := List.map_congr_left hid
    _ = idx := List.map_id idx

/-- A fold of upserts whose keys all differ from a cleanly stored
passage's key keeps it cleanly stored. -/
theorem fold_stored_of_disjoint (ps : List Passage) (idx : List Passage) (p' : Passage)
    (hS : Stored idx p') (h : ∀ p ∈ ps, p.key ≠ p'.key) :
    Stored (ps.foldl upsert idx) p' := by
  induction ps generalizing idx with
  | nil => exact hS
  | cons p ps ih =>
    rw [List.foldl_cons]
    exact ih (upsert idx p)
      (upsert_stored_other idx p p' hS (fun hh => h p (List.mem_cons_self p ps) hh.symm))
      (fun q hq => h q (List.mem_cons_of_mem p hq))

/-- After folding a key-duplicate-free passage list, every passage of the
list is cleanly stored. -/
theorem fold_stored_mem (ps : List Passage) (idx : List Passage)
    (hnd : (ps.map Passage.key).Nodup) :
    ∀ p ∈ ps, Stored (ps.foldl upsert idx) p := by
  induction ps generalizing idx with
  | nil => intro p hp; cases hp
  | cons p0 ps ih =>
    have hnd' := hnd
    rw [List.map_cons, List.nodup_cons] at hnd'
    intro p hp
    rcases List.mem_cons.mp hp with rfl | hmem
    · rw [List.foldl_cons]
      apply fold_stored_of_disjoint ps (upsert idx p) p (upsert_stored_self idx p)
      intro q hq hk
      exact hnd'.1 (hk ▸ List.mem_map_of_mem Passage.key hq)
    · rw [List.foldl_cons]
      exact ih (upsert idx p0) hnd'.2 p hmem

/-- Folding upserts of passages that are all cleanly stored already
changes nothing. -/
theorem fold_stored_noop (ps : List Passage) (idx : List Passage)
    (h : ∀ p ∈ ps, Stored idx p) :
    ps.foldl upsert idx = idx := by
  induction ps with
  | nil => rfl
  | cons p ps ih =>
    rw [List.foldl_cons, upsert_stored_noop idx p (h p (List.mem_cons_self p ps))]
    exact ih (fun q hq => h q (List.mem_cons_of_mem p hq))

/-- The keys of the passages built from a report are duplicate-free. -/
theorem buildPassages_keys_nodup (pid : String) (r : ComplianceReport) :
    ((buildPassages pid r).map Passage.key).Nodup := by
  unfold buildPassages
  rw [List.map_append, List.map_append, List.map_map, List.map_map, List.append_assoc]
  have hv : r.raw_policy_violations.enum.map
        (Passage.key ∘ fun pr =>
          { key := { portfolio_id := pid, chunk_type := "violation", ordinal := pr.1 }
            text := pr.2 })
      = (List.range r.raw_policy_violations.length).map
          (fun i => { portfolio_id := pid, chunk_type := "violation", ordinal := i }) := by
    rw [← List.enum_map_fst r.raw_policy_violations, List.map_map]
    rfl
  have hd : r.raw_risk_drifts.enum.map
        (Passage.key ∘ fun pr =>
          { key := { portfolio_id := pid, chunk_type := "drift", ordinal := pr.1 }
            text := driftSentence pr.2 })
      = (List.range r.raw_risk_drifts.length).map
          (fun i => { portfolio_id := pid, chunk_type := "drift", ordinal := i }) := by
    rw [← List.enum_map_fst r.raw_risk_drifts, List.map_map]
    rfl
  rw [hv, hd]
  have hinj : ∀ ct : String, Function.Injective
      (fun i => ({ portfolio_id := pid, chunk_type := ct, ordinal := i } : PassageKey)) := by
    intro ct a b hab
    simpa using congrArg PassageKey.ordinal hab
  have hsum : (List.map Passage.key
      [{ key := { portfolio_id := pid, chunk_type := "summary", ordinal := 0 }
         text := r.policy_violations_summary },
       { key := { portfolio_id := pid, chunk_type := "summary", ordinal := 1 }
         text := r.risk_drifts_summary }]).Nodup := by
    simp only [List.map_cons, List.map_nil]
    refine List.nodup_cons.mpr ⟨?_, List.nodup_singleton _⟩
    intro hmem
    have hord := congrArg PassageKey.ordinal (List.mem_singleton.mp hmem)
    simp at hord
  apply List.Nodup.append
  · exact (List.nodup_range _).map (hinj "violation")
  · apply List.Nodup.append
    · exact (List.nodup_range _).map (hinj "drift")
    · exact hsum
    · intro k hk1 hk2
      rcases List.mem_map.mp hk1 with ⟨i, _, rfl⟩
      simp only [List.map_cons, List.map_nil, List.mem_cons,
        List.not_mem_nil, or_false] at hk2
      rcases hk2 with hk2 | hk2 <;>
        (have hct := congrArg PassageKey.chunk_type hk2; simp at hct)
  · intro k hk1 hk2
    rcases List.mem_map.mp hk1 with ⟨i, _, rfl⟩
    rcases List.mem_append.mp hk2 with hk | hk
    · rcases List.mem_map.mp hk with ⟨j, _, hj⟩
      have hct := congrArg PassageKey.chunk_type hj.symm
      simp at hct
    · simp only [List.map_cons, List.map_nil, List.mem_cons,
        List.not_mem_nil, or_false] at hk
      rcases hk with hk | hk <;>
        (have hct := congrArg PassageKey.chunk_type hk; simp at hct)

/-- C6: indexing the same report into the same portfolio namespace twice
leaves the index exactly as indexing it once: the upsert keyed by
portfolio id, chunk type and ordinal is idempotent. -/
theorem index_report_idempotent (idx : List Passage) (pid : String) (r : ComplianceReport) :
    indexReport (indexReport idx pid r) pid r = indexReport idx pid r := by
  unfold indexReport
  exact fold_stored_noop (buildPassages pid r) ((buildPassages pid r).foldl upsert idx)
    (fun p hp => fold_stored_mem (buildPassages pid r) idx (buildPassages_keys_nodup pid r) p hp)

/-- C7: two analysis runs over the same positions, rules, model
allocation and threshold produce identical report content apart from the
generated_at timestamp. -/
theorem report_determinism (positions : List Position) (rules : List PolicyRule)
    (alloc : List (String × ℚ)) (threshold : ℚ) (t1 t2 : Nat) :
    reportContent (buildReport positions rules alloc threshold t1)
      = reportContent (buildReport positions rules alloc threshold t2) :=
  rfl

/-- C8 counterexample: the askComplianceQuestion request the UI sends
(called from the upload-page chat handler) carries no chat history at
all, refuting the claim that every question request does. -/
theorem ask_compliance_question_omits_history :
    (askComplianceQuestion "P1" "Was there any risk drift?").chat_history = none :=
  rfl

/-- C8 amended: a non-blank question sent through handleSendMessage
produces a request whose url names client and portfolio, whose question
field is the question, and whose body carries the prior chat history; a
successful response is consumed through its answer field, appended as
the final assistant turn. -/
theorem rag_question_request_shape (clientId portfolioId question : String)
    (history : List ChatTurn) (outcome : RagOutcome)
    (h : jsTrim question ≠ "") :
    (handleSendMessage clientId portfolioId history question outcome).request
        = some { url := API_BASE_URL ++ "/rag/ask/" ++ clientId ++ "/" ++ portfolioId
                 question := question
                 chat_history := some history }
      ∧ ∀ answer, outcome = RagOutcome.success answer →
          (handleSendMessage clientId portfolioId history question outcome).chatHistory.getLast?
            = some { role := "assistant", content := answer } := by
  cases outcome with
  | success answer =>
    refine ⟨?_, ?_⟩
    · simp only [handleSendMessage, if_neg h]
      rfl
    · intro a ha
      injection ha with ha
      subst ha
      simp only [handleSendMessage, if_neg h]
      exact List.getLast?_concat _
  | failure message =>
    refine ⟨?_, ?_⟩
    · simp only [handleSendMessage, if_neg h]
      rfl
    · intro a ha
      cases ha

/-- Witness for the amended C8 at concrete inputs. -/
theorem rag_question_request_shape_witness :
    jsTrim "What drifted?" ≠ ""
      ∧ (handleSendMessage "C1" "P1" histFix "What drifted?"
            (RagOutcome.success "Tech drifted.")).request
        = some { url := API_BASE_URL ++ "/rag/ask/" ++ "C1" ++ "/" ++ "P1"
                 question := "What drifted?"
                 chat_history := some histFix } :=
  ⟨by decide,
    (rag_question_request_shape "C1" "P1" "What drifted?" histFix
      (RagOutcome.success "Tech drifted.") (by decide)).1⟩

/-- C9: a completed handleSendMessage call on a non-blank question sends
exactly the pre-append history, grows the history by the user question
then the assistant answer on success, replaces the optimistic user turn
by a single assistant error turn on failure, and always ends on an
assistant turn. -/
theorem handle_send_message_history (clientId portfolioId : String)
    (history : List ChatTurn) (question : String) (outcome : RagOutcome)
    (h : jsTrim question ≠ "") :
    (handleSendMessage clientId portfolioId history question outcome).request
        = some (ragRequest clientId portfolioId question history)
      ∧ (∀ answer, outcome = RagOutcome.success answer →
          (handleSendMessage clientId portfolioId history question outcome).chatHistory
            = history ++ [{ role := "user", content := question },
                          { role := "assistant", content := answer }])
      ∧ (∀ message, outcome = RagOutcome.failure message →
          (handleSendMessage clientId portfolioId history question outcome).chatHistory
            = history ++ [{ role := "assistant"
                            content := "Error: Could not get a response. " ++ message }])
      ∧ ∃ t, (handleSendMessage clientId portfolioId history question outcome).chatHistory.getLast?
              = some t ∧ t.role = "assistant" := by
  cases outcome with
  | success answer =>
    refine ⟨by simp only [handleSendMessage, if_neg h], ?_, ?_, ?_⟩
    · intro a ha
      injection ha with ha
      subst ha
      simp only [handleSendMessage, if_neg h]
      rw [List.append_assoc]
      rfl
    · intro m hm
      cases hm
    · refine ⟨{ role := "assistant", content := answer }, ?_, rfl⟩
      simp only [handleSendMessage, if_neg h]
      exact List.getLast?_concat _
  | failure message =>
    refine ⟨by simp only [handleSendMessage, if_neg h], ?_, ?_, ?_⟩
    · intro a ha
      cases ha
    · intro m hm
      injection hm with hm
      subst hm
      simp only [handleSendMessage, if_neg h]
      rw [List.dropLast_concat]
    · refine ⟨{ role := "assistant"
                content := "Error: Could not get a response. " ++ message }, ?_, rfl⟩
      simp only [handleSendMessage, if_neg h]
      rw [List.dropLast_concat]
      exact List.getLast?_concat _

/-- Witness for C9 at concrete inputs, exercising the failure branch. -/
theorem handle_send_message_history_witness :
    jsTrim "q" ≠ ""
      ∧ (handleSendMessage "C1" "P1" histFix "q" (RagOutcome.failure "boom")).chatHistory
        = histFix ++ [{ role := "assistant"
                        content := "Error: Could not get a response. " ++ "boom" }] :=
  ⟨by decide,
    (handle_send_message_history "C1" "P1" histFix "q" (RagOutcome.failure "boom")
        (by decide)).2.2.1 "boom" rfl⟩

/-- Folding the chart sum from a numeric accumulator never reaches NaN. -/
theorem foldDrift_ne_nan (drifts : List RawDriftJs) :
    ∀ q : ℚ, drifts.foldl
        (fun sum d =>
          let driftValue := d.drift
          jsAdd sum (if jsIsNaN driftValue then JsNum.val 0 else jsAbs driftValue))
        (JsNum.val q)
      ≠ JsNum.nan := by
  induction drifts with
  | nil =>
    intro q h
    cases h
  | cons d ds ih =>
    intro q
    rw [List.foldl_cons]
    cases hd : d.drift with
    | nan => simpa [hd, jsIsNaN, jsAdd] using ih (q + 0)
    | val x => simpa [hd, jsIsNaN, jsAbs, jsAdd] using ih (q + |x|)

/-- Membership through sorted insertion. -/
theorem mem_insertBy (le : ChartPoint → ChartPoint → Bool) (a x : ChartPoint)
    (l : List ChartPoint) : x ∈ insertBy le a l ↔ x = a ∨ x ∈ l := by
  induction l with
  | nil => simp [insertBy]
  | cons b bs ih =>
    simp only [insertBy]
    by_cases h : le a b
    · simp [h]
    · simp only [if_neg h, List.mem_cons, ih]
      tauto

/-- Membership through the comparison sort. -/
theorem mem_sortBy (le : ChartPoint → ChartPoint → Bool) (x : ChartPoint)
    (l : List ChartPoint) : x ∈ sortBy le l ↔ x ∈ l := by
  induction l with
  | nil => simp [sortBy]
  | cons a as ih => simp [sortBy, mem_insertBy, ih]

/-- C10: every chart point comes from a record having a compliance
report with a non-empty raw_risk_drifts array, and its totalRiskDrift is
never NaN: unparsable drifts contribute zero instead. -/
theorem chart_points_safe (reports : List HistoricalRecordJs)
    (fmtDate : String → String) (dateLe : ChartPoint → ChartPoint → Bool)
    (pt : ChartPoint) (hpt : pt ∈ chartData reports fmtDate dateLe) :
    pt.totalRiskDrift ≠ JsNum.nan
      ∧ ∃ r ∈ reports, hasChartableDrifts r = true ∧ pt = mkChartPoint fmtDate r := by
  unfold chartData at hpt
  rw [mem_sortBy] at hpt
  rcases List.mem_map.mp hpt with ⟨r, hr, rfl⟩
  rcases List.mem_filter.mp hr with ⟨hmem, hq⟩
  exact ⟨foldDrift_ne_nan (recordDrifts r) 0, r, hmem, hq, rfl⟩

/-- Witness for C10 at the fixture record. -/
theorem chart_points_safe_witness :
    chartPtFix.totalRiskDrift ≠ JsNum.nan
      ∧ ∃ r ∈ [recChart], hasChartableDrifts r = true ∧ chartPtFix = mkChartPoint id r :=
  chart_points_safe [recChart] id (fun _ _ => true) chartPtFix
    (by
      have hc : chartData [recChart] id (fun _ _ => true) = [chartPtFix] := rfl
      rw [hc]
      exact List.mem_singleton_self chartPtFix)

end PTCA

